import Mathlib

/-!
Shallow embedding of the pagination pipeline of the Velocloud_stuff repository:
the two scripts getVCOEnterpriseGetEdgeFlowVisibilityMetrics.py ("Metrics") and
getVCOEnterpriseGetEnterpriseEvents.py ("Events").  Each script runs a fetcher
worker (fetch_data_worker) that walks the API's cursor pagination and puts item
batches on a queue, terminated by a None sentinel, and a writer loop (in main)
that drains the queue and appends the items to a JSON array file.

The embedding represents one execution of fetch_data_worker as a fold over a
finite script of transport outcomes (one outcome per HTTP POST), recording the
request bodies built, the messages put on the queue, and how the loop ended:
normally (every break in the source is preceded by queue.put(None)), by an
uncaught Python exception (KeyError/TypeError), or with the outcome script
exhausted while the loop would continue ("starved": the execution is not over).

Response bodies are modelled as parsed JSON objects (the wire protocol's
response type), or None for a body that response.json() fails to parse.
Items are arbitrary JSON values.
-/

namespace Velocloud

/-- JSON values, as produced by response.json() and consumed by json.dumps. -/
inductive JValue where
  | null
  | bool (b : Bool)
  | num (n : Int)
  | str (s : String)
  | arr (xs : List JValue)
  | obj (fields : List (String × JValue))

/-- A parsed JSON object: an association list of fields in insertion order. -/
abbrev Obj := List (String × JValue)

/-- Python truthiness of a JSON value (bool(x)): None, False, 0, "", [] and
an empty dict are falsy, everything else truthy. -/
def pyTruthy : JValue → Bool
  | JValue.null => false
  | JValue.bool b => b
  | JValue.num n => n != 0
  | JValue.str s => s != ""
  | JValue.arr xs => !xs.isEmpty
  | JValue.obj fs => !fs.isEmpty

/-- Python membership test (k in v) for a string key k: key lookup on a dict,
element equality on a list, substring test on a string; a TypeError (modelled
as error) on numbers, booleans and None. -/
def pyIn (k : String) : JValue → Except Unit Bool
  | JValue.obj fs => Except.ok (List.lookup k fs).isSome
  | JValue.arr xs =>
      Except.ok (xs.any (fun x => match x with | JValue.str s => s == k | _ => false))
  | JValue.str s => Except.ok ((s.splitOn k).length != 1)
  | _ => Except.error ()

/-- Python subscript v[k] for a string key k: dict lookup, raising KeyError
when the key is absent and TypeError when v is not a dict (both modelled as
error, i.e. an uncaught exception). -/
def pySubscr : JValue → String → Except Unit JValue
  | JValue.obj fs, k =>
      match List.lookup k fs with
      | some v => Except.ok v
      | none => Except.error ()
  | _, _ => Except.error ()

/-- Models item.get("name") == "other": true exactly when the item is a dict
whose "name" field is the string "other".  (The data model's Items are JSON
objects; for a non-dict item the Python .get call would itself raise, which no
claim exercises.) -/
def isOther : JValue → Bool
  | JValue.obj fs =>
      match List.lookup "name" fs with
      | some (JValue.str s) => s == "other"
      | _ => false
  | _ => false

/-- Negation of the "other" sentinel test, the writer's keep-predicate. -/
def notOther (it : JValue) : Bool := !isOther it

/-- Models the termination test of both fetch loops:
metaData not in data or more not in data[metaData] or not data[metaData][more].
ok true means no more pages (put None and break); ok false means continue;
error means the membership test or subscript raised (TypeError). -/
def noMorePages (data : Obj) : Except Unit Bool :=
  match List.lookup "metaData" data with
  | none => Except.ok true
  | some mv =>
      match pyIn "more" mv with
      | Except.error e => Except.error e
      | Except.ok false => Except.ok true
      | Except.ok true =>
          match pySubscr mv "more" with
          | Except.error e => Except.error e
          | Except.ok v => Except.ok (!pyTruthy v)

/-- Models data[metaData][nextPageLink], the continuation token used verbatim
for the next-page request body; error is an uncaught KeyError/TypeError. -/
def tokOf (data : Obj) : Except Unit JValue :=
  match pySubscr (JValue.obj data) "metaData" with
  | Except.error e => Except.error e
  | Except.ok mv => pySubscr mv "nextPageLink"

/-- One transport outcome for one POST request: a connection error raised by
the requests library, or an HTTP response with a status code and a body that
either parses to a JSON object or fails to parse (none). -/
inductive PResp where
  | connError
  | http (status : Nat) (body : Option Obj)

/-- A message put on the multiprocessing queue: a batch of items
(queue.put(data[data])) or the end-of-stream sentinel (queue.put(None)). -/
inductive Msg where
  | batch (items : List JValue)
  | streamEnd

/-- How a fetch_data_worker execution ended: ended means the loop broke after
putting the None sentinel; crashed means an uncaught Python exception ended
the worker with no sentinel; starved means the outcome script ran out while
the loop would have issued another request. -/
inductive RunEnd where
  | ended
  | crashed
  | starved
deriving DecidableEq

/-- Trace of one fetch_data_worker execution: the (request body, response)
pair of each completed iteration, the queue messages in order, and how the
loop ended. -/
structure RunOut where
  steps : List (Obj × PResp)
  msgs : List Msg
  fin : RunEnd

/-- Pagination phase: first_page = True, or first_page = False together with
the continuation token data[metaData][nextPageLink] read from the most recent
response. -/
inductive PState where
  | first
  | next (tok : JValue)

/-- Whether the phase is still the first-page phase. -/
def isFirst : PState → Bool
  | PState.first => true
  | PState.next _ => false

/-- Classification of one transport outcome by the shared validation ladder of
both workers: fatal covers a requests exception, a non-200 status, an
unparseable body, a falsy (empty) parsed object and a parsed object without a
"data" field - each makes the worker put None and break.  good carries the
parsed object and its "data" array.  bad is a "data" field that is not an
array, on which the worker's later len()/iteration raises (out of every
claim's scope; modelled as a crash). -/
inductive RespCase where
  | fatal
  | bad
  | good (data : Obj) (items : List JValue)

/-- Validation ladder of fetch_data_worker, in source order: connection error,
status_code != 200, response.json() failure, not data or "data" not in data. -/
def classify : PResp → RespCase
  | PResp.connError => RespCase.fatal
  | PResp.http status body =>
      if status ≠ 200 then RespCase.fatal
      else
        match body with
        | none => RespCase.fatal
        | some data =>
            if data.isEmpty then RespCase.fatal
            else
              match List.lookup "data" data with
              | none => RespCase.fatal
              | some (JValue.arr items) => RespCase.good data items
              | some _ => RespCase.bad

/-- Models len(data[data]) == 1 and data[data][0].get("name") == "other",
the Metrics worker's lone summary-element test. -/
def loneOtherB (items : List JValue) : Bool :=
  items.length == 1 && isOther (items.headD JValue.null)

/-- Resolved configuration consumed by the Metrics worker. -/
structure MParams where
  EdgeID : Int
  enterpriseId : Int
  start : String
  stop : String
  limit_flow : Int

/-- First-page request body of the Metrics worker. -/
def metricsFirstBody (p : MParams) : Obj :=
  [("edgeId", JValue.num p.EdgeID),
   ("enterpriseId", JValue.num p.enterpriseId),
   ("interval", JValue.obj [("start", JValue.str p.start), ("end", JValue.str p.stop)]),
   ("limit", JValue.num p.limit_flow),
   ("_filterSpec", JValue.bool false)]

/-- Subsequent-page request body of the Metrics worker, built around the
continuation token taken verbatim from the previous response. -/
def metricsNextBody (p : MParams) (tok : JValue) : Obj :=
  [("edgeId", JValue.num p.EdgeID),
   ("interval", JValue.obj [("start", JValue.str p.start), ("end", JValue.str p.stop)]),
   ("nextPageLink", tok)]

/-- Request-body construction of the Metrics worker, keyed by phase. -/
def mkBodyM (p : MParams) : PState → Obj
  | PState.first => metricsFirstBody p
  | PState.next tok => metricsNextBody p tok

/-- Resolved configuration consumed by the Events worker. -/
structure EParams where
  enterpriseId : Int
  start : Int
  stop : Int
  Vtype : String
  limit_event : Int

/-- First-page request body of the Events worker (its limit is nested inside
the "filter" object). -/
def eventsFirstBody (p : EParams) : Obj :=
  [("filter", JValue.obj [("limit", JValue.num p.limit_event)]),
   ("interval", JValue.obj [("start", JValue.num p.start), ("end", JValue.num p.stop),
                            ("type", JValue.str p.Vtype)]),
   ("enterpriseId", JValue.num p.enterpriseId)]

/-- Subsequent-page request body of the Events worker (its limit is a
top-level field here). -/
def eventsNextBody (p : EParams) (tok : JValue) : Obj :=
  [("nextPageLink", tok),
   ("limit", JValue.num p.limit_event),
   ("interval", JValue.obj [("start", JValue.num p.start), ("end", JValue.num p.stop),
                            ("type", JValue.str p.Vtype)]),
   ("enterpriseId", JValue.num p.enterpriseId)]

/-- Request-body construction of the Events worker, keyed by phase. -/
def mkBodyE (p : EParams) : PState → Obj
  | PState.first => eventsFirstBody p
  | PState.next tok => eventsNextBody p tok

/-- One execution of the Metrics fetch_data_worker over a finite script of
transport outcomes.  Per iteration, in source order: build the body from the
phase, consume one outcome, run the validation ladder, suppress the batch when
the page is exactly one "other" item (keeping first_page unchanged), otherwise
put the batch and clear first_page, then test for more pages.  When the loop
continues with first_page cleared, the continuation token
data[metaData][nextPageLink] is read from the current response - an absent
token raises KeyError (crashed, no sentinel). -/
def metricsLoop (p : MParams) : PState → List PResp → RunOut
  | _, [] => ⟨[], [], RunEnd.starved⟩
  | st, r :: rest =>
      let body := mkBodyM p st
      match classify r with
      | RespCase.fatal => ⟨[(body, r)], [Msg.streamEnd], RunEnd.ended⟩
      | RespCase.bad => ⟨[(body, r)], [], RunEnd.crashed⟩
      | RespCase.good data items =>
          let sent : List Msg := if loneOtherB items then [] else [Msg.batch items]
          let stayFirst : Bool := loneOtherB items && isFirst st
          match noMorePages data with
          | Except.error _ => ⟨[(body, r)], sent, RunEnd.crashed⟩
          | Except.ok true => ⟨[(body, r)], sent ++ [Msg.streamEnd], RunEnd.ended⟩
          | Except.ok false =>
              if stayFirst then
                let o := metricsLoop p PState.first rest
                ⟨(body, r) :: o.steps, sent ++ o.msgs, o.fin⟩
              else
                match tokOf data with
                | Except.error _ => ⟨[(body, r)], sent, RunEnd.crashed⟩
                | Except.ok tok =>
                    let o := metricsLoop p (PState.next tok) rest
                    ⟨(body, r) :: o.steps, sent ++ o.msgs, o.fin⟩

/-- One execution of the Events fetch_data_worker.  Unlike Metrics it has no
"other"-page suppression: every validated page, even an empty one, is put on
the queue as a batch, and first_page is cleared unconditionally. -/
def eventsLoop (p : EParams) : PState → List PResp → RunOut
  | _, [] => ⟨[], [], RunEnd.starved⟩
  | st, r :: rest =>
      let body := mkBodyE p st
      match classify r with
      | RespCase.fatal => ⟨[(body, r)], [Msg.streamEnd], RunEnd.ended⟩
      | RespCase.bad => ⟨[(body, r)], [], RunEnd.crashed⟩
      | RespCase.good data items =>
          match noMorePages data with
          | Except.error _ => ⟨[(body, r)], [Msg.batch items], RunEnd.crashed⟩
          | Except.ok true => ⟨[(body, r)], [Msg.batch items, Msg.streamEnd], RunEnd.ended⟩
          | Except.ok false =>
              match tokOf data with
              | Except.error _ => ⟨[(body, r)], [Msg.batch items], RunEnd.crashed⟩
              | Except.ok tok =>
                  let o := eventsLoop p (PState.next tok) rest
                  ⟨(body, r) :: o.steps, Msg.batch items :: o.msgs, o.fin⟩

/-- A whole Metrics worker execution, started in the first-page phase. -/
def metricsRun (p : MParams) (script : List PResp) : RunOut :=
  metricsLoop p PState.first script

/-- A whole Events worker execution, started in the first-page phase. -/
def eventsRun (p : EParams) (script : List PResp) : RunOut :=
  eventsLoop p PState.first script

/-- A run of 4 * lvl spaces, the indentation json.dumps uses at depth lvl
with indent=4. -/
def pad (lvl : Nat) : String := String.mk (List.replicate (4 * lvl) ' ')

/-- Hexadecimal digit character, lower case, as in Python \uXXXX escapes. -/
def hexDigit (n : Nat) : Char :=
  if n < 10 then Char.ofNat (48 + n) else Char.ofNat (87 + n)

/-- Four-digit lower-case hexadecimal rendering of a code unit. -/
def hex4 (n : Nat) : String :=
  String.mk [hexDigit (n / 4096 % 16), hexDigit (n / 256 % 16),
             hexDigit (n / 16 % 16), hexDigit (n % 16)]

/-- Escape of one character inside a JSON string, following json.dumps with
its default ensure_ascii=True: the two-character escapes for quote, backslash
and common control characters, \uXXXX (with surrogate pairs above the basic
plane) for other characters outside the printable ASCII range. -/
def escChar (c : Char) : String :=
  if c = '"' then "\\\""
  else if c = '\\' then "\\\\"
  else if c = '\n' then "\\n"
  else if c = '\r' then "\\r"
  else if c = '\t' then "\\t"
  else if c.toNat = 8 then "\\b"
  else if c.toNat = 12 then "\\f"
  else if c.toNat < 32 || 126 < c.toNat then
    if c.toNat < 65536 then "\\u" ++ hex4 c.toNat
    else
      "\\u" ++ hex4 (55296 + (c.toNat - 65536) / 1024) ++
      "\\u" ++ hex4 (56320 + (c.toNat - 65536) % 1024)
  else String.singleton c

/-- JSON rendering of a string, as json.dumps renders Python str values. -/
def dumpString (s : String) : String :=
  "\"" ++ String.join (s.toList.map escChar) ++ "\""

mutual

/-- Models json.dumps(v, indent=4) at nesting depth lvl: scalars inline,
non-empty containers opened on their own line with each member indented one
level deeper and separated by a comma plus newline. -/
def pyDumps : JValue → Nat → String
  | JValue.null, _ => "null"
  | JValue.bool b, _ => if b then "true" else "false"
  | JValue.num n, _ => toString n
  | JValue.str s, _ => dumpString s
  | JValue.arr xs, lvl =>
      if xs.isEmpty then "[]"
      else "[\n" ++ pyDumpsArr xs (lvl + 1) ++ "\n" ++ pad lvl ++ "]"
  | JValue.obj fs, lvl =>
      if fs.isEmpty then "\x7b\x7d"
      else "\x7b\n" ++ pyDumpsObj fs (lvl + 1) ++ "\n" ++ pad lvl ++ "\x7d"

/-- Member lines of a JSON array under json.dumps(-, indent=4). -/
def pyDumpsArr : List JValue → Nat → String
  | [], _ => ""
  | [x], lvl => pad lvl ++ pyDumps x lvl
  | x :: y :: t, lvl => pad lvl ++ pyDumps x lvl ++ ",\n" ++ pyDumpsArr (y :: t) lvl

/-- Member lines of a JSON object under json.dumps(-, indent=4), with the
": " key-value separator json.dumps uses when indent is given. -/
def pyDumpsObj : List (String × JValue) → Nat → String
  | [], _ => ""
  | [(k, v)], lvl => pad lvl ++ dumpString k ++ ": " ++ pyDumps v lvl
  | (k, v) :: y :: t, lvl =>
      pad lvl ++ dumpString k ++ ": " ++ pyDumps v lvl ++ ",\n" ++ pyDumpsObj (y :: t) lvl

end

/-- Splitting of a character list at newline characters, accumulating the
current line in reverse. -/
def splitLinesAux : List Char → List Char → List String
  | [], acc => [String.mk acc.reverse]
  | c :: rest, acc =>
      if c = '\n' then String.mk acc.reverse :: splitLinesAux rest []
      else splitLinesAux rest (c :: acc)

/-- The lines of a string, as str.splitlines() yields them for json.dumps
output (which never ends in a newline). -/
def splitLines (s : String) : List String := splitLinesAux s.data []

/-- Joining of lines with newline separators. -/
def joinLines : List String → String
  | [] => ""
  | [l] => l
  | l :: l2 :: rest => l ++ "\n" ++ joinLines (l2 :: rest)

/-- Models write_json_with_indent(item, output_file, indent=4): render the
item with json.dumps(item, indent=4), then prefix every line of the result
with four further spaces. -/
def write_json_with_indent (item : JValue) : String :=
  joinLines ((splitLines (pyDumps item 0)).map (fun line => "    " ++ line))

/-- Text appended to the output file for one batch by the Metrics write loop,
together with the FirstElement flag after the batch: items whose "name" field
equals "other" are skipped, every kept item after the first element ever
written is preceded by the ",\n" separator. -/
def writeChunkM : List JValue → Bool → String × Bool
  | [], first => ("", first)
  | it :: rest, first =>
      if isOther it then writeChunkM rest first
      else
        let o := writeChunkM rest false
        ((if first then "" else ",\n") ++ write_json_with_indent it ++ o.1, o.2)

/-- Text appended to the output file for one batch by the Events write loop.
It has no "other" filter: every item of the batch is written. -/
def writeChunkE : List JValue → Bool → String × Bool
  | [], first => ("", first)
  | it :: rest, first =>
      let o := writeChunkE rest false
      ((if first then "" else ",\n") ++ write_json_with_indent it ++ o.1, o.2)

/-- Outcome of a writer receive loop over a message list: the text appended
between the framing brackets, the FirstElement flag when the loop stopped or
starved, and whether the None sentinel was observed (the only way the loop
breaks). -/
structure WriterOut where
  text : String
  firstAfter : Bool
  sawEnd : Bool

/-- The Metrics write loop of main: receive a message; None breaks the loop,
a batch (empty or not) is written with writeChunkM and the loop continues.
An exhausted message list models a writer still blocked in queue.get(). -/
def writerLoopM : List Msg → Bool → WriterOut
  | [], first => ⟨"", first, false⟩
  | Msg.streamEnd :: _, first => ⟨"", first, true⟩
  | Msg.batch c :: rest, first =>
      let w := writeChunkM c first
      let o := writerLoopM rest w.2
      ⟨w.1 ++ o.text, o.firstAfter, o.sawEnd⟩

/-- The Events write loop of main, identical to the Metrics one except that
batches are written without the "other" filter. -/
def writerLoopE : List Msg → Bool → WriterOut
  | [], first => ⟨"", first, false⟩
  | Msg.streamEnd :: _, first => ⟨"", first, true⟩
  | Msg.batch c :: rest, first =>
      let w := writeChunkE c first
      let o := writerLoopE rest w.2
      ⟨w.1 ++ o.text, o.firstAfter, o.sawEnd⟩

/-- Complete output file of the Metrics writer: "[\n" is written before the
receive loop, "\n]" after the None sentinel is observed.  none models a run
in which the sentinel never arrives, so the writer never finishes the file. -/
def writerRunM (msgs : List Msg) : Option String :=
  let o := writerLoopM msgs true
  if o.sawEnd then some ("[\n" ++ o.text ++ "\n]") else none

/-- Complete output file of the Events writer. -/
def writerRunE (msgs : List Msg) : Option String :=
  let o := writerLoopE msgs true
  if o.sawEnd then some ("[\n" ++ o.text ++ "\n]") else none

/-- End-to-end Metrics pipeline: the writer consuming, in order, exactly the
messages the fetcher put on the queue. -/
def metricsPipeline (p : MParams) (script : List PResp) : Option String :=
  writerRunM (metricsRun p script).msgs

/-- End-to-end Events pipeline. -/
def eventsPipeline (p : EParams) (script : List PResp) : Option String :=
  writerRunE (eventsRun p script).msgs

/-- Batches received before the None sentinel, in arrival order. -/
def chunksBeforeEnd : List Msg → List (List JValue)
  | [] => []
  | Msg.streamEnd :: _ => []
  | Msg.batch c :: rest => c :: chunksBeforeEnd rest

/-- Whether a None sentinel occurs anywhere in a message list. -/
def sawEndB : List Msg → Bool
  | [] => false
  | Msg.streamEnd :: _ => true
  | Msg.batch _ :: rest => sawEndB rest

/-- Rendering of a list of items in which every item is preceded by the
",\n" separator. -/
def sepRendered : List JValue → String
  | [] => ""
  | it :: rest => ",\n" ++ write_json_with_indent it ++ sepRendered rest

/-- The body of a JSON array whose elements are the given items rendered by
write_json_with_indent, with a ",\n" separator preceding every element after
the first. -/
def renderAll : List JValue → String
  | [] => ""
  | it :: rest => write_json_with_indent it ++ sepRendered rest

/-- Protocol well-formedness of one transport outcome, the precondition under
which a worker iteration cannot raise: the body's "data" field, when the
validation ladder reaches it, is an array; the metaData more-test does not
raise a TypeError; and when more pages are indicated the continuation token
data[metaData][nextPageLink] is present.  Fatal outcomes are vacuously safe. -/
def respSafe (r : PResp) : Bool :=
  match classify r with
  | RespCase.fatal => true
  | RespCase.bad => false
  | RespCase.good data _ =>
      match noMorePages data with
      | Except.error _ => false
      | Except.ok true => true
      | Except.ok false =>
          match tokOf data with
          | Except.ok _ => true
          | Except.error _ => false

/-- Abstract description of one successful page of the pagination protocol:
its item array, its metaData.more flag and its optional continuation token. -/
structure Page where
  items : List JValue
  more : Bool
  tok : Option JValue

/-- The metaData object of a page: the more flag, plus nextPageLink when the
page carries a continuation token. -/
def metaFields (pg : Page) : List (String × JValue) :=
  ("more", JValue.bool pg.more) ::
    (match pg.tok with
     | some t => [("nextPageLink", t)]
     | none => [])

/-- The parsed body of a successful page response. -/
def pageData (pg : Page) : Obj :=
  [("data", JValue.arr pg.items), ("metaData", JValue.obj (metaFields pg))]

/-- The transport outcome of a successful page: HTTP 200 with the page body. -/
def encodePage (pg : Page) : PResp :=
  PResp.http 200 (some (pageData pg))

/-- A valid page sequence of the pagination protocol: non-empty, every page
before the last announces more pages and carries a continuation token, and
the last page announces no more pages. -/
def validSeq : List Page → Bool
  | [] => false
  | [pg] => pg.more == false
  | pg :: pg2 :: rest => pg.more && pg.tok.isSome && validSeq (pg2 :: rest)

/-- The continuation token a parsed response exposes, when the lookup
data[metaData][nextPageLink] succeeds. -/
def respTok : PResp → Option JValue
  | PResp.http _ (some data) =>
      match tokOf data with
      | Except.ok t => some t
      | Except.error _ => none
  | _ => none

/-- Chaining invariant over the (request body, response) trace of a run: for
every adjacent pair of iterations, if the later request body carries a
nextPageLink field then its value is exactly the continuation token of the
immediately preceding response. -/
def chainedBodies : List (Obj × PResp) → Prop
  | (_, r1) :: (b2, r2) :: t =>
      (∀ tokv, List.lookup "nextPageLink" b2 = some tokv → respTok r1 = some tokv) ∧
      chainedBodies ((b2, r2) :: t)
  | _ => True

/-- The field names of a request body, in order. -/
def bodyKeys (o : Obj) : List String := o.map Prod.fst

/-- An ordinary data item used in concrete runs. -/
def itemId1 : JValue := JValue.obj [("id", JValue.num 1)]

/-- A second ordinary data item used in concrete runs. -/
def itemId2 : JValue := JValue.obj [("id", JValue.num 2)]

/-- A third ordinary data item used in concrete runs. -/
def itemId4 : JValue := JValue.obj [("id", JValue.num 4)]

/-- The "other" status sentinel item the API injects. -/
def itemOther : JValue := JValue.obj [("name", JValue.str "other"), ("rx", JValue.num 9)]

/-- A concrete Metrics configuration for witnesses and counterexamples. -/
def pM0 : MParams := ⟨12345, 7, "2024-02-20T03:04:00.000000000+00:00",
  "2025-02-22T15:04:00.000000000+00:00", 204800⟩

/-- A concrete Events configuration for witnesses and counterexamples. -/
def pE0 : EParams := ⟨7, 1708394640000, 1740236640000, "past12Months", 2048⟩

/-- A valid two-page sequence used in concrete runs. -/
def pages2 : List Page :=
  [⟨[itemId1, itemId2], true, some (JValue.str "T1")⟩, ⟨[itemId4], false, none⟩]

/-- A valid two-page sequence whose first page is only the "other" sentinel. -/
def pagesLoneFirst : List Page :=
  [⟨[itemOther], true, some (JValue.str "T1")⟩, ⟨[itemId4], false, none⟩]

/-- A valid one-page sequence whose only page is empty. -/
def pageEmptyLast : List Page := [⟨[], false, none⟩]

/-- A page that announces more pages but carries no continuation token. -/
def pgNoTok : Page := ⟨[itemId1], true, none⟩

/-- The transport outcome of the token-less more-pages page. -/
def respNoTok : PResp := encodePage pgNoTok

/-- The Metrics per-batch writer equals the Events one applied to the batch
with its "other" items filtered out. -/
theorem writeChunkM_eq_filter (c : List JValue) (first : Bool) :
    writeChunkM c first = writeChunkE (c.filter notOther) first := by
  induction c generalizing first with
  | nil => rfl
  | cons it rest ih =>
      cases h : isOther it with
      | true => simp [writeChunkM, writeChunkE, h, notOther, List.filter_cons, ih]
      | false => simp [writeChunkM, writeChunkE, h, notOther, List.filter_cons, ih]

/-- Writing a concatenation of item lists writes the two parts in order,
threading the FirstElement flag through. -/
theorem writeChunkE_append (a b : List JValue) (first : Bool) :
    writeChunkE (a ++ b) first =
      ((writeChunkE a first).1 ++ (writeChunkE b (writeChunkE a first).2).1,
       (writeChunkE b (writeChunkE a first).2).2) := by
  induction a generalizing first with
  | nil => simp [writeChunkE, String.empty_append]
  | cons it rest ih => simp [writeChunkE, ih, String.append_assoc]

/-- With the first element already written, every item is preceded by the
separator and the flag stays cleared. -/
theorem writeChunkE_false (items : List JValue) :
    writeChunkE items false = (sepRendered items, false) := by
  induction items with
  | nil => rfl
  | cons it rest ih => simp [writeChunkE, sepRendered, ih, String.append_assoc]

/-- From a fresh FirstElement flag, a batch writes as a comma-separated
element list with no separator before the first element. -/
theorem writeChunkE_true (items : List JValue) :
    writeChunkE items true = (renderAll items, items.isEmpty) := by
  cases items with
  | nil => rfl
  | cons it rest =>
      simp [writeChunkE, renderAll, writeChunkE_false, String.empty_append, List.isEmpty]

/-- The Metrics receive loop writes exactly the "other"-filtered concatenation
of the batches before the sentinel, and observes the sentinel exactly when one
occurs in the message list. -/
theorem writerLoopM_eq (msgs : List Msg) (first : Bool) :
    writerLoopM msgs first =
      ⟨(writeChunkE (((chunksBeforeEnd msgs).flatten).filter notOther) first).1,
       (writeChunkE (((chunksBeforeEnd msgs).flatten).filter notOther) first).2,
       sawEndB msgs⟩ := by
  induction msgs generalizing first with
  | nil => simp [writerLoopM, chunksBeforeEnd, sawEndB, writeChunkE]
  | cons m rest ih =>
      cases m with
      | streamEnd => simp [writerLoopM, chunksBeforeEnd, sawEndB, writeChunkE]
      | batch c =>
          simp [writerLoopM, chunksBeforeEnd, sawEndB, ih, writeChunkM_eq_filter,
                List.flatten_cons, List.filter_append, writeChunkE_append]

/-- The Events receive loop writes exactly the concatenation of the batches
before the sentinel, with no filtering. -/
theorem writerLoopE_eq (msgs : List Msg) (first : Bool) :
    writerLoopE msgs first =
      ⟨(writeChunkE ((chunksBeforeEnd msgs).flatten) first).1,
       (writeChunkE ((chunksBeforeEnd msgs).flatten) first).2,
       sawEndB msgs⟩ := by
  induction msgs generalizing first with
  | nil => simp [writerLoopE, chunksBeforeEnd, sawEndB, writeChunkE]
  | cons m rest ih =>
      cases m with
      | streamEnd => simp [writerLoopE, chunksBeforeEnd, sawEndB, writeChunkE]
      | batch c =>
          simp [writerLoopE, chunksBeforeEnd, sawEndB, ih,
                List.flatten_cons, writeChunkE_append]

/-- The sentinel never occurs in the per-page send of the Metrics worker. -/
theorem streamEnd_not_mem_sent (its : List JValue) :
    Msg.streamEnd ∉ (if loneOtherB its then ([] : List Msg) else [Msg.batch its]) := by
  cases loneOtherB its <;> simp

/-- Message-shape invariant of the Metrics worker: a normally ended run puts
some batches and then exactly one sentinel, last; a crashed or starved run
puts no sentinel at all. -/
theorem metricsLoop_shape (p : MParams) (script : List PResp) :
    ∀ st,
      ((metricsLoop p st script).fin = RunEnd.ended →
        ∃ bs, (metricsLoop p st script).msgs = bs ++ [Msg.streamEnd] ∧ Msg.streamEnd ∉ bs) ∧
      ((metricsLoop p st script).fin ≠ RunEnd.ended →
        Msg.streamEnd ∉ (metricsLoop p st script).msgs) := by
  induction script with
  | nil =>
      intro st
      simp [metricsLoop]
  | cons r rest ih =>
      intro st
      cases hc : classify r with
      | fatal =>
          refine ⟨fun _ => ⟨[], by simp [metricsLoop, hc], by simp⟩, fun h => ?_⟩
          simp [metricsLoop, hc] at h
      | bad =>
          refine ⟨fun h => ?_, fun _ => by simp [metricsLoop, hc]⟩
          simp [metricsLoop, hc] at h
      | good data items =>
          cases hm : noMorePages data with
          | error e =>
              refine ⟨fun h => ?_, fun _ => ?_⟩
              · simp [metricsLoop, hc, hm] at h
              · simp only [metricsLoop, hc, hm]
                exact streamEnd_not_mem_sent items
          | ok b =>
              cases b with
              | true =>
                  refine ⟨fun _ => ?_, fun h => ?_⟩
                  · refine ⟨(if loneOtherB items then ([] : List Msg) else [Msg.batch items]),
                      by simp [metricsLoop, hc, hm], streamEnd_not_mem_sent items⟩
                  · simp [metricsLoop, hc, hm] at h
              | false =>
                  cases hs : (loneOtherB items && isFirst st) with
                  | true =>
                      have hmain := ih PState.first
                      refine ⟨fun h => ?_, fun h => ?_⟩
                      · have hfin : (metricsLoop p PState.first rest).fin = RunEnd.ended := by
                          simpa [metricsLoop, hc, hm, hs] using h
                        obtain ⟨bs, hbs, hnb⟩ := hmain.1 hfin
                        refine ⟨(if loneOtherB items then ([] : List Msg) else [Msg.batch items]) ++ bs,
                          ?_, ?_⟩
                        · simp [metricsLoop, hc, hm, hs, hbs]
                        · intro hmem
                          rcases List.mem_append.mp hmem with h1 | h1
                          · exact streamEnd_not_mem_sent items h1
                          · exact hnb h1
                      · have hfin : (metricsLoop p PState.first rest).fin ≠ RunEnd.ended := by
                          simpa [metricsLoop, hc, hm, hs] using h
                        have hnm := hmain.2 hfin
                        simp only [metricsLoop, hc, hm, hs]
                        intro hmem
                        exact hnm (by simpa using hmem)
                  | false =>
                      cases ht : tokOf data with
                      | error e =>
                          refine ⟨fun h => ?_, fun _ => ?_⟩
                          · simp [metricsLoop, hc, hm, hs, ht] at h
                          · simp only [metricsLoop, hc, hm, hs, ht]
                            exact streamEnd_not_mem_sent items
                      | ok tok =>
                          have hmain := ih (PState.next tok)
                          refine ⟨fun h => ?_, fun h => ?_⟩
                          · have hfin : (metricsLoop p (PState.next tok) rest).fin = RunEnd.ended := by
                              simpa [metricsLoop, hc, hm, hs, ht] using h
                            obtain ⟨bs, hbs, hnb⟩ := hmain.1 hfin
                            refine ⟨(if loneOtherB items then ([] : List Msg) else [Msg.batch items]) ++ bs,
                              ?_, ?_⟩
                            · simp [metricsLoop, hc, hm, hs, ht, hbs]
                            · intro hmem
                              rcases List.mem_append.mp hmem with h1 | h1
                              · exact streamEnd_not_mem_sent items h1
                              · exact hnb h1
                          · have hfin : (metricsLoop p (PState.next tok) rest).fin ≠ RunEnd.ended := by
                              simpa [metricsLoop, hc, hm, hs, ht] using h
                            have hnm := hmain.2 hfin
                            simp only [metricsLoop, hc, hm, hs, ht]
                            intro hmem
                            exact hnm (by simpa using hmem)

/-- Message-shape invariant of the Events worker: a normally ended run puts
some batches and then exactly one sentinel, last; a crashed or starved run
puts no sentinel at all. -/
theorem eventsLoop_shape (p : EParams) (script : List PResp) :
    ∀ st,
      ((eventsLoop p st script).fin = RunEnd.ended →
        ∃ bs, (eventsLoop p st script).msgs = bs ++ [Msg.streamEnd] ∧ Msg.streamEnd ∉ bs) ∧
      ((eventsLoop p st script).fin ≠ RunEnd.ended →
        Msg.streamEnd ∉ (eventsLoop p st script).msgs) := by
  induction script with
  | nil =>
      intro st
      simp [eventsLoop]
  | cons r rest ih =>
      intro st
      cases hc : classify r with
      | fatal =>
          refine ⟨fun _ => ⟨[], by simp [eventsLoop, hc], by simp⟩, fun h => ?_⟩
          simp [eventsLoop, hc] at h
      | bad =>
          refine ⟨fun h => ?_, fun _ => by simp [eventsLoop, hc]⟩
          simp [eventsLoop, hc] at h
      | good data items =>
          cases hm : noMorePages data with
          | error e =>
              refine ⟨fun h => ?_, fun _ => by simp [eventsLoop, hc, hm]⟩
              simp [eventsLoop, hc, hm] at h
          | ok b =>
              cases b with
              | true =>
                  refine ⟨fun _ => ⟨[Msg.batch items], by simp [eventsLoop, hc, hm], by simp⟩,
                    fun h => ?_⟩
                  simp [eventsLoop, hc, hm] at h
              | false =>
                  cases ht : tokOf data with
                  | error e =>
                      refine ⟨fun h => ?_, fun _ => by simp [eventsLoop, hc, hm, ht]⟩
                      simp [eventsLoop, hc, hm, ht] at h
                  | ok tok =>
                      have hmain := ih (PState.next tok)
                      refine ⟨fun h => ?_, fun h => ?_⟩
                      · have hfin : (eventsLoop p (PState.next tok) rest).fin = RunEnd.ended := by
                          simpa [eventsLoop, hc, hm, ht] using h
                        obtain ⟨bs, hbs, hnb⟩ := hmain.1 hfin
                        refine ⟨Msg.batch items :: bs, by simp [eventsLoop, hc, hm, ht, hbs], ?_⟩
                        intro hmem
                        rcases List.mem_cons.mp hmem with h1 | h1
                        · exact Msg.noConfusion h1
                        · exact hnb h1
                      · have hfin : (eventsLoop p (PState.next tok) rest).fin ≠ RunEnd.ended := by
                          simpa [eventsLoop, hc, hm, ht] using h
                        have hnm := hmain.2 hfin
                        simp only [eventsLoop, hc, hm, ht]
                        intro hmem
                        exact hnm (by simpa using hmem)

/-- A Metrics run over protocol-well-formed outcomes never ends in an uncaught
exception. -/
theorem metricsLoop_no_crash (p : MParams) (script : List PResp)
    (hw : ∀ r ∈ script, respSafe r = true) :
    ∀ st, (metricsLoop p st script).fin ≠ RunEnd.crashed := by
  induction script with
  | nil => intro st; simp [metricsLoop]
  | cons r rest ih =>
      intro st
      have hr : respSafe r = true := hw r (List.mem_cons_self r rest)
      have hrest : ∀ x ∈ rest, respSafe x = true :=
        fun x hx => hw x (List.mem_cons_of_mem r hx)
      cases hc : classify r with
      | fatal => simp [metricsLoop, hc]
      | bad => simp [respSafe, hc] at hr
      | good data items =>
          cases hm : noMorePages data with
          | error e => simp [respSafe, hc, hm] at hr
          | ok b =>
              cases b with
              | true => simp [metricsLoop, hc, hm]
              | false =>
                  cases hs : (loneOtherB items && isFirst st) with
                  | true =>
                      have := ih hrest PState.first
                      simpa [metricsLoop, hc, hm, hs] using this
                  | false =>
                      cases ht : tokOf data with
                      | error e => simp [respSafe, hc, hm, ht] at hr
                      | ok tok =>
                          have := ih hrest (PState.next tok)
                          simpa [metricsLoop, hc, hm, hs, ht] using this

/-- An Events run over protocol-well-formed outcomes never ends in an uncaught
exception. -/
theorem eventsLoop_no_crash (p : EParams) (script : List PResp)
    (hw : ∀ r ∈ script, respSafe r = true) :
    ∀ st, (eventsLoop p st script).fin ≠ RunEnd.crashed := by
  induction script with
  | nil => intro st; simp [eventsLoop]
  | cons r rest ih =>
      intro st
      have hr : respSafe r = true := hw r (List.mem_cons_self r rest)
      have hrest : ∀ x ∈ rest, respSafe x = true :=
        fun x hx => hw x (List.mem_cons_of_mem r hx)
      cases hc : classify r with
      | fatal => simp [eventsLoop, hc]
      | bad => simp [respSafe, hc] at hr
      | good data items =>
          cases hm : noMorePages data with
          | error e => simp [respSafe, hc, hm] at hr
          | ok b =>
              cases b with
              | true => simp [eventsLoop, hc, hm]
              | false =>
                  cases ht : tokOf data with
                  | error e => simp [respSafe, hc, hm, ht] at hr
                  | ok tok =>
                      have := ih hrest (PState.next tok)
                      simpa [eventsLoop, hc, hm, ht] using this

/-- A good classification can only come from an HTTP 200 outcome whose body
parsed to the carried object. -/
theorem classify_good_inv (r : PResp) (data : Obj) (items : List JValue)
    (h : classify r = RespCase.good data items) : r = PResp.http 200 (some data) := by
  cases r with
  | connError => simp [classify] at h
  | http status body =>
      by_cases hst : status = 200
      · subst hst
        cases body with
        | none => simp [classify] at h
        | some d =>
            by_cases he : d.isEmpty
            · simp [classify, he] at h
            · cases hl : List.lookup "data" d with
              | none => simp [classify, he, hl] at h
              | some v =>
                  cases v <;> simp [classify, he, hl] at h
                  exact congrArg (fun o => PResp.http 200 (some o)) h.1
      · simp [classify, hst] at h

/-- A good classification determines the response token of the outcome. -/
theorem respTok_of_good (r : PResp) (data : Obj) (items : List JValue) (tok : JValue)
    (hc : classify r = RespCase.good data items) (ht : tokOf data = Except.ok tok) :
    respTok r = some tok := by
  rw [classify_good_inv r data items hc]
  simp [respTok, ht]

/-- The trace of a non-empty run starts with the body built from the starting
phase, paired with the first outcome. -/
theorem metricsLoop_steps_head (p : MParams) (st : PState) (r : PResp) (rest : List PResp) :
    ∃ t, (metricsLoop p st (r :: rest)).steps = (mkBodyM p st, r) :: t := by
  cases hc : classify r with
  | fatal => exact ⟨[], by simp [metricsLoop, hc]⟩
  | bad => exact ⟨[], by simp [metricsLoop, hc]⟩
  | good data items =>
      cases hm : noMorePages data with
      | error e => exact ⟨[], by simp [metricsLoop, hc, hm]⟩
      | ok b =>
          cases b with
          | true => exact ⟨[], by simp [metricsLoop, hc, hm]⟩
          | false =>
              cases hs : (loneOtherB items && isFirst st) with
              | true =>
                  exact ⟨(metricsLoop p PState.first rest).steps, by simp [metricsLoop, hc, hm, hs]⟩
              | false =>
                  cases ht : tokOf data with
                  | error e => exact ⟨[], by simp [metricsLoop, hc, hm, hs, ht]⟩
                  | ok tok =>
                      exact ⟨(metricsLoop p (PState.next tok) rest).steps,
                        by simp [metricsLoop, hc, hm, hs, ht]⟩

/-- The trace of a non-empty Events run starts with the body built from the
starting phase, paired with the first outcome. -/
theorem eventsLoop_steps_head (p : EParams) (st : PState) (r : PResp) (rest : List PResp) :
    ∃ t, (eventsLoop p st (r :: rest)).steps = (mkBodyE p st, r) :: t := by
  cases hc : classify r with
  | fatal => exact ⟨[], by simp [eventsLoop, hc]⟩
  | bad => exact ⟨[], by simp [eventsLoop, hc]⟩
  | good data items =>
      cases hm : noMorePages data with
      | error e => exact ⟨[], by simp [eventsLoop, hc, hm]⟩
      | ok b =>
          cases b with
          | true => exact ⟨[], by simp [eventsLoop, hc, hm]⟩
          | false =>
              cases ht : tokOf data with
              | error e => exact ⟨[], by simp [eventsLoop, hc, hm, ht]⟩
              | ok tok =>
                  exact ⟨(eventsLoop p (PState.next tok) rest).steps,
                    by simp [eventsLoop, hc, hm, ht]⟩

/-- Neither first-page body carries a nextPageLink field, and each next-page
body carries exactly the token it was built from. -/
theorem lookup_nextPageLink_bodies (p : MParams) (q : EParams) (tok : JValue) :
    List.lookup "nextPageLink" (metricsFirstBody p) = none ∧
    List.lookup "nextPageLink" (eventsFirstBody q) = none ∧
    List.lookup "nextPageLink" (metricsNextBody p tok) = some tok ∧
    List.lookup "nextPageLink" (eventsNextBody q tok) = some tok := by
  refine ⟨rfl, rfl, rfl, rfl⟩

/-- Chain invariant for the Metrics trace: every next-page body in the trace
carries the continuation token of the immediately preceding response. -/
theorem metricsLoop_chained (p : MParams) (script : List PResp) :
    ∀ st, chainedBodies (metricsLoop p st script).steps := by
  induction script with
  | nil => intro st; simp [metricsLoop, chainedBodies]
  | cons r rest ih =>
      intro st
      cases hc : classify r with
      | fatal => simp [metricsLoop, hc, chainedBodies]
      | bad => simp [metricsLoop, hc, chainedBodies]
      | good data items =>
          cases hm : noMorePages data with
          | error e => simp [metricsLoop, hc, hm, chainedBodies]
          | ok b =>
              cases b with
              | true => simp [metricsLoop, hc, hm, chainedBodies]
              | false =>
                  cases hs : (loneOtherB items && isFirst st) with
                  | true =>
                      have hch := ih PState.first
                      simp only [metricsLoop, hc, hm, hs]
                      cases rest with
                      | nil => simp [metricsLoop, chainedBodies]
                      | cons r2 rest2 =>
                          obtain ⟨t, hts⟩ := metricsLoop_steps_head p PState.first r2 rest2
                          rw [hts]
                          rw [hts] at hch
                          refine ⟨?_, hch⟩
                          intro tokv hl
                          have hnone : List.lookup "nextPageLink" (mkBodyM p PState.first) = none := rfl
                          rw [hnone] at hl
                          exact Option.noConfusion hl
                  | false =>
                      cases ht : tokOf data with
                      | error e => simp [metricsLoop, hc, hm, hs, ht, chainedBodies]
                      | ok tok =>
                          have hch := ih (PState.next tok)
                          simp only [metricsLoop, hc, hm, hs, ht]
                          cases rest with
                          | nil => simp [metricsLoop, chainedBodies]
                          | cons r2 rest2 =>
                              obtain ⟨t, hts⟩ := metricsLoop_steps_head p (PState.next tok) r2 rest2
                              rw [hts]
                              rw [hts] at hch
                              refine ⟨?_, hch⟩
                              intro tokv hl
                              have hsome : List.lookup "nextPageLink" (mkBodyM p (PState.next tok)) = some tok := rfl
                              rw [hsome] at hl
                              obtain rfl := Option.some.inj hl
                              exact respTok_of_good r data items tok hc ht

/-- Chain invariant for the Events trace. -/
theorem eventsLoop_chained (p : EParams) (script : List PResp) :
    ∀ st, chainedBodies (eventsLoop p st script).steps := by
  induction script with
  | nil => intro st; simp [eventsLoop, chainedBodies]
  | cons r rest ih =>
      intro st
      cases hc : classify r with
      | fatal => simp [eventsLoop, hc, chainedBodies]
      | bad => simp [eventsLoop, hc, chainedBodies]
      | good data items =>
          cases hm : noMorePages data with
          | error e => simp [eventsLoop, hc, hm, chainedBodies]
          | ok b =>
              cases b with
              | true => simp [eventsLoop, hc, hm, chainedBodies]
              | false =>
                  cases ht : tokOf data with
                  | error e => simp [eventsLoop, hc, hm, ht, chainedBodies]
                  | ok tok =>
                      have hch := ih (PState.next tok)
                      simp only [eventsLoop, hc, hm, ht]
                      cases rest with
                      | nil => simp [eventsLoop, chainedBodies]
                      | cons r2 rest2 =>
                          obtain ⟨t, hts⟩ := eventsLoop_steps_head p (PState.next tok) r2 rest2
                          rw [hts]
                          rw [hts] at hch
                          refine ⟨?_, hch⟩
                          intro tokv hl
                          have hsome : List.lookup "nextPageLink" (mkBodyE p (PState.next tok)) = some tok := rfl
                          rw [hsome] at hl
                          obtain rfl := Option.some.inj hl
                          exact respTok_of_good r data items tok hc ht

/-- A successful page outcome classifies as good, carrying its body and item
array. -/
theorem classify_encodePage (pg : Page) :
    classify (encodePage pg) = RespCase.good (pageData pg) pg.items := rfl

/-- The more-pages test on a page body is the negation of the page's more
flag, with no exception. -/
theorem noMorePages_pageData (pg : Page) :
    noMorePages (pageData pg) = Except.ok (!pg.more) := rfl

/-- Token extraction from a page body yields the page's continuation token
when one is present. -/
theorem tokOf_pageData (pg : Page) (t : JValue) (h : pg.tok = some t) :
    tokOf (pageData pg) = Except.ok t := by
  obtain ⟨items, more, tok⟩ := pg
  cases h
  rfl

/-- One Metrics iteration on a fatal outcome: one sentinel, normal end. -/
theorem metricsLoop_step_fatal (p : MParams) (st : PState) (r : PResp) (rest : List PResp)
    (hc : classify r = RespCase.fatal) :
    metricsLoop p st (r :: rest) = ⟨[(mkBodyM p st, r)], [Msg.streamEnd], RunEnd.ended⟩ := by
  simp [metricsLoop, hc]

/-- One Metrics iteration on a good page that announces no more pages: the
page send then the sentinel, normal end. -/
theorem metricsLoop_step_last (p : MParams) (st : PState) (r : PResp) (rest : List PResp)
    (data : Obj) (items : List JValue)
    (hc : classify r = RespCase.good data items)
    (hm : noMorePages data = Except.ok true) :
    metricsLoop p st (r :: rest) =
      ⟨[(mkBodyM p st, r)],
       (if loneOtherB items then ([] : List Msg) else [Msg.batch items]) ++ [Msg.streamEnd],
       RunEnd.ended⟩ := by
  simp [metricsLoop, hc, hm]

/-- One Metrics iteration on a lone-"other" page in the first-page phase with
more pages: no message for the page, and the loop continues still in the
first-page phase (no continuation token is read). -/
theorem metricsLoop_step_stayFirst (p : MParams) (r : PResp) (rest : List PResp)
    (data : Obj) (items : List JValue)
    (hc : classify r = RespCase.good data items)
    (hm : noMorePages data = Except.ok false)
    (hl : loneOtherB items = true) :
    metricsLoop p PState.first (r :: rest) =
      ⟨(mkBodyM p PState.first, r) :: (metricsLoop p PState.first rest).steps,
       (metricsLoop p PState.first rest).msgs,
       (metricsLoop p PState.first rest).fin⟩ := by
  simp [metricsLoop, hc, hm, hl, isFirst]

/-- One Metrics iteration on a good page that continues into the next-page
phase carrying the token extracted from this response. -/
theorem metricsLoop_step_continue (p : MParams) (st : PState) (r : PResp) (rest : List PResp)
    (data : Obj) (items : List JValue) (tok : JValue)
    (hc : classify r = RespCase.good data items)
    (hm : noMorePages data = Except.ok false)
    (hs : (loneOtherB items && isFirst st) = false)
    (ht : tokOf data = Except.ok tok) :
    metricsLoop p st (r :: rest) =
      ⟨(mkBodyM p st, r) :: (metricsLoop p (PState.next tok) rest).steps,
       (if loneOtherB items then ([] : List Msg) else [Msg.batch items]) ++
         (metricsLoop p (PState.next tok) rest).msgs,
       (metricsLoop p (PState.next tok) rest).fin⟩ := by
  simp [metricsLoop, hc, hm, hs, ht]

/-- One Metrics iteration that must read a missing continuation token: the
page send only, then the KeyError ends the worker with no sentinel. -/
theorem metricsLoop_step_crash (p : MParams) (st : PState) (r : PResp) (rest : List PResp)
    (data : Obj) (items : List JValue)
    (hc : classify r = RespCase.good data items)
    (hm : noMorePages data = Except.ok false)
    (hs : (loneOtherB items && isFirst st) = false)
    (ht : tokOf data = Except.error ()) :
    metricsLoop p st (r :: rest) =
      ⟨[(mkBodyM p st, r)],
       (if loneOtherB items then ([] : List Msg) else [Msg.batch items]),
       RunEnd.crashed⟩ := by
  simp [metricsLoop, hc, hm, hs, ht]

/-- One Events iteration on a fatal outcome: one sentinel, normal end. -/
theorem eventsLoop_step_fatal (p : EParams) (st : PState) (r : PResp) (rest : List PResp)
    (hc : classify r = RespCase.fatal) :
    eventsLoop p st (r :: rest) = ⟨[(mkBodyE p st, r)], [Msg.streamEnd], RunEnd.ended⟩ := by
  simp [eventsLoop, hc]

/-- One Events iteration on a good page that announces no more pages: the
batch then the sentinel, normal end. -/
theorem eventsLoop_step_last (p : EParams) (st : PState) (r : PResp) (rest : List PResp)
    (data : Obj) (items : List JValue)
    (hc : classify r = RespCase.good data items)
    (hm : noMorePages data = Except.ok true) :
    eventsLoop p st (r :: rest) =
      ⟨[(mkBodyE p st, r)], [Msg.batch items, Msg.streamEnd], RunEnd.ended⟩ := by
  simp [eventsLoop, hc, hm]

/-- One Events iteration on a good page that continues into the next-page
phase carrying the token extracted from this response. -/
theorem eventsLoop_step_continue (p : EParams) (st : PState) (r : PResp) (rest : List PResp)
    (data : Obj) (items : List JValue) (tok : JValue)
    (hc : classify r = RespCase.good data items)
    (hm : noMorePages data = Except.ok false)
    (ht : tokOf data = Except.ok tok) :
    eventsLoop p st (r :: rest) =
      ⟨(mkBodyE p st, r) :: (eventsLoop p (PState.next tok) rest).steps,
       Msg.batch items :: (eventsLoop p (PState.next tok) rest).msgs,
       (eventsLoop p (PState.next tok) rest).fin⟩ := by
  simp [eventsLoop, hc, hm, ht]

/-- One Events iteration that must read a missing continuation token: the
batch only, then the KeyError ends the worker with no sentinel. -/
theorem eventsLoop_step_crash (p : EParams) (st : PState) (r : PResp) (rest : List PResp)
    (data : Obj) (items : List JValue)
    (hc : classify r = RespCase.good data items)
    (hm : noMorePages data = Except.ok false)
    (ht : tokOf data = Except.error ()) :
    eventsLoop p st (r :: rest) =
      ⟨[(mkBodyE p st, r)], [Msg.batch items], RunEnd.crashed⟩ := by
  simp [eventsLoop, hc, hm, ht]

/-- Over a valid page sequence the Metrics worker ends normally and its
messages are exactly the non-suppressed pages' item arrays as batches, in
page order, followed by the sentinel. -/
theorem metricsLoop_validSeq (p : MParams) (pages : List Page) (h : validSeq pages = true) :
    ∀ st, (metricsLoop p st (pages.map encodePage)).fin = RunEnd.ended ∧
      (metricsLoop p st (pages.map encodePage)).msgs =
        ((pages.map Page.items).filter (fun its => !loneOtherB its)).map Msg.batch ++
          [Msg.streamEnd] := by
  induction pages with
  | nil => simp [validSeq] at h
  | cons pg rest ih =>
      cases rest with
      | nil =>
          have hm : pg.more = false := by simpa [validSeq] using h
          intro st
          rw [List.map_cons, List.map_nil,
            metricsLoop_step_last p st (encodePage pg) [] (pageData pg) pg.items
              (classify_encodePage pg) (by simp [noMorePages_pageData, hm])]
          cases hl : loneOtherB pg.items with
          | true => simp [hl, List.filter_cons]
          | false => simp [hl, List.filter_cons]
      | cons pg2 rest2 =>
          have h2 := h
          simp only [validSeq, Bool.and_eq_true] at h2
          obtain ⟨⟨hmore, hsome⟩, hrest⟩ := h2
          obtain ⟨t, ht⟩ := Option.isSome_iff_exists.mp hsome
          have htok := tokOf_pageData pg t ht
          have hrec := ih hrest
          intro st
          rw [List.map_cons]
          cases hl : loneOtherB pg.items with
          | true =>
              cases st with
              | first =>
                  rw [metricsLoop_step_stayFirst p (encodePage pg) _ (pageData pg) pg.items
                        (classify_encodePage pg) (by simp [noMorePages_pageData, hmore]) hl]
                  have hr := hrec PState.first
                  simp only [List.map_cons] at hr
                  simp [hr.1, hr.2, List.filter_cons, hl]
              | next tk =>
                  rw [metricsLoop_step_continue p (PState.next tk) (encodePage pg) _
                        (pageData pg) pg.items t (classify_encodePage pg)
                        (by simp [noMorePages_pageData, hmore]) (by simp [isFirst]) htok]
                  have hr := hrec (PState.next t)
                  simp only [List.map_cons] at hr
                  simp [hr.1, hr.2, List.filter_cons, hl]
          | false =>
              rw [metricsLoop_step_continue p st (encodePage pg) _
                    (pageData pg) pg.items t (classify_encodePage pg)
                    (by simp [noMorePages_pageData, hmore]) (by simp [hl]) htok]
              have hr := hrec (PState.next t)
              simp only [List.map_cons] at hr
              simp [hr.1, hr.2, List.filter_cons, hl]

/-- Over a valid page sequence the Events worker ends normally and forwards
every page's item array as a batch, in page order, followed by the sentinel. -/
theorem eventsLoop_validSeq (p : EParams) (pages : List Page) (h : validSeq pages = true) :
    ∀ st, (eventsLoop p st (pages.map encodePage)).fin = RunEnd.ended ∧
      (eventsLoop p st (pages.map encodePage)).msgs =
        (pages.map Page.items).map Msg.batch ++ [Msg.streamEnd] := by
  induction pages with
  | nil => simp [validSeq] at h
  | cons pg rest ih =>
      cases rest with
      | nil =>
          have hm : pg.more = false := by simpa [validSeq] using h
          intro st
          rw [List.map_cons, List.map_nil,
            eventsLoop_step_last p st (encodePage pg) [] (pageData pg) pg.items
              (classify_encodePage pg) (by simp [noMorePages_pageData, hm])]
          simp
      | cons pg2 rest2 =>
          have h2 := h
          simp only [validSeq, Bool.and_eq_true] at h2
          obtain ⟨⟨hmore, hsome⟩, hrest⟩ := h2
          obtain ⟨t, ht⟩ := Option.isSome_iff_exists.mp hsome
          have htok := tokOf_pageData pg t ht
          intro st
          rw [List.map_cons,
            eventsLoop_step_continue p st (encodePage pg) _ (pageData pg) pg.items t
              (classify_encodePage pg) (by simp [noMorePages_pageData, hmore]) htok]
          have hr := ih hrest (PState.next t)
          simp only [List.map_cons] at hr
          simp [hr.1, hr.2]

/-- Dropping the suppressed lone-"other" pages before concatenation does not
change the "other"-filtered concatenation. -/
theorem filter_flatten_drop_lone (ls : List (List JValue)) :
    ((ls.filter (fun its => !loneOtherB its)).flatten).filter notOther =
      (ls.flatten).filter notOther := by
  induction ls with
  | nil => rfl
  | cons its rest ih =>
      cases hl : loneOtherB its with
      | false => simp [List.filter_cons, hl, List.flatten_cons, List.filter_append, ih]
      | true =>
          have hemp : its.filter notOther = [] := by
            cases its with
            | nil => simp [loneOtherB] at hl
            | cons x tl =>
                cases tl with
                | nil =>
                    have hx : isOther x = true := by simpa [loneOtherB] using hl
                    simp [List.filter_cons, notOther, hx]
                | cons y tl2 => simp [loneOtherB] at hl
          simp [List.filter_cons, hl, List.flatten_cons, List.filter_append, hemp, ih]

/-- The batches before the sentinel of a batches-then-sentinel message list
are exactly those batches. -/
theorem chunksBeforeEnd_batches (cs : List (List JValue)) :
    chunksBeforeEnd (cs.map Msg.batch ++ [Msg.streamEnd]) = cs := by
  induction cs with
  | nil => rfl
  | cons c rest ih => simp [chunksBeforeEnd, ih]

/-- A batches-then-sentinel message list contains a sentinel. -/
theorem sawEndB_batches (cs : List (List JValue)) :
    sawEndB (cs.map Msg.batch ++ [Msg.streamEnd]) = true := by
  induction cs with
  | nil => rfl
  | cons c rest ih => simp [sawEndB, ih]

/-- Claim C4: a response with a non-200 HTTP status, or one that parses but
lacks a "data" field, makes either worker put exactly one StreamEnd sentinel
and stop - zero further batches from that point forward, whatever the phase
(and hence whatever batches were already sent); the missing-data case behaves
identically to the non-200 case. -/
theorem claimC4_fatal (p : MParams) (q : EParams) (st su : PState) (r : PResp)
    (rest erest : List PResp)
    (h : (∃ s body, r = PResp.http s body ∧ s ≠ 200) ∨
         (∃ s data, r = PResp.http s (some data) ∧ List.lookup "data" data = none)) :
    metricsLoop p st (r :: rest) = ⟨[(mkBodyM p st, r)], [Msg.streamEnd], RunEnd.ended⟩ ∧
    eventsLoop q su (r :: erest) = ⟨[(mkBodyE q su, r)], [Msg.streamEnd], RunEnd.ended⟩ := by
  have hc : classify r = RespCase.fatal := by
    rcases h with ⟨s, body, rfl, hs⟩ | ⟨s, data, rfl, hd⟩
    · simp [classify, hs]
    · by_cases hs : s = 200
      · subst hs
        by_cases he : data.isEmpty
        · simp [classify, he]
        · simp [classify, he, hd]
      · simp [classify, hs]
  exact ⟨metricsLoop_step_fatal p st r rest hc, eventsLoop_step_fatal q su r erest hc⟩

/-- Claim C4, witness: a 500 response makes both workers send one sentinel
and stop. -/
theorem claimC4_witness :
    metricsLoop pM0 PState.first [PResp.http 500 none] =
      ⟨[(mkBodyM pM0 PState.first, PResp.http 500 none)], [Msg.streamEnd], RunEnd.ended⟩ ∧
    eventsLoop pE0 PState.first [PResp.http 500 none] =
      ⟨[(mkBodyE pE0 PState.first, PResp.http 500 none)], [Msg.streamEnd], RunEnd.ended⟩ :=
  claimC4_fatal pM0 pE0 PState.first PState.first (PResp.http 500 none) [] []
    (Or.inl ⟨500, none, rfl, by decide⟩)

/-- Claim C5: in every run of either worker, every request body that carries a
nextPageLink field carries, verbatim, the metaData.nextPageLink token of the
immediately preceding response; the token is never derived or transformed. -/
theorem claimC5_chained (p : MParams) (q : EParams) (script escript : List PResp) :
    chainedBodies (metricsRun p script).steps ∧ chainedBodies (eventsRun q escript).steps :=
  ⟨metricsLoop_chained p script PState.first, eventsLoop_chained q escript PState.first⟩

/-- Claim C5, witness: the chain invariant on a concrete two-page run of
each worker. -/
theorem claimC5_witness :
    chainedBodies (metricsRun pM0 (pages2.map encodePage)).steps ∧
    chainedBodies (eventsRun pE0 (pages2.map encodePage)).steps :=
  claimC5_chained pM0 pE0 (pages2.map encodePage) (pages2.map encodePage)

/-- Claim C6: for every message stream in which the sentinel arrives (even
with zero items written), each writer emits the leading bracket before the
receive loop, the trailing bracket after the sentinel, and a comma separator
before every element after the first element ever written across the whole
run, in arrival order - one JSON array document. -/
theorem claimC6_framing (msgs emsgs : List Msg)
    (h : sawEndB msgs = true) (he : sawEndB emsgs = true) :
    writerRunM msgs =
      some ("[\n" ++ renderAll (((chunksBeforeEnd msgs).flatten).filter notOther) ++ "\n]") ∧
    writerRunE emsgs =
      some ("[\n" ++ renderAll ((chunksBeforeEnd emsgs).flatten) ++ "\n]") := by
  constructor
  · simp [writerRunM, writerLoopM_eq, h, writeChunkE_true]
  · simp [writerRunE, writerLoopE_eq, he, writeChunkE_true]

/-- Claim C6, witness: the zero-item run produces the empty JSON array
framing. -/
theorem claimC6_witness :
    sawEndB [Msg.streamEnd] = true ∧
    (writerRunM [Msg.streamEnd] =
      some ("[\n" ++ renderAll (((chunksBeforeEnd [Msg.streamEnd]).flatten).filter notOther) ++ "\n]") ∧
     writerRunE [Msg.streamEnd] =
      some ("[\n" ++ renderAll ((chunksBeforeEnd [Msg.streamEnd]).flatten) ++ "\n]")) :=
  ⟨rfl, claimC6_framing [Msg.streamEnd] [Msg.streamEnd] rfl rfl⟩

/-- Claim C10: an empty batch is not the sentinel for either writer: it
writes nothing, leaves the accumulated output and the FirstElement flag
unchanged, and the receive loop continues with the next message; only the
distinct StreamEnd value breaks the loop. -/
theorem claimC10_empty_batch (rest : List Msg) (first : Bool) :
    writerLoopM (Msg.batch [] :: rest) first = writerLoopM rest first ∧
    writerLoopE (Msg.batch [] :: rest) first = writerLoopE rest first ∧
    writerLoopM (Msg.streamEnd :: rest) first = ⟨"", first, true⟩ ∧
    writerLoopE (Msg.streamEnd :: rest) first = ⟨"", first, true⟩ := by
  refine ⟨?_, ?_, rfl, rfl⟩ <;>
    simp [writerLoopM, writerLoopE, writeChunkM, writeChunkE]

/-- Claim C10, witness: the empty-batch step at a concrete message list. -/
theorem claimC10_witness :
    writerLoopM (Msg.batch [] :: [Msg.streamEnd]) true = writerLoopM [Msg.streamEnd] true ∧
    writerLoopE (Msg.batch [] :: [Msg.streamEnd]) true = writerLoopE [Msg.streamEnd] true ∧
    writerLoopM (Msg.streamEnd :: [Msg.streamEnd]) true = ⟨"", true, true⟩ ∧
    writerLoopE (Msg.streamEnd :: [Msg.streamEnd]) true = ⟨"", true, true⟩ :=
  claimC10_empty_batch [Msg.streamEnd] true

/-- Claim C1, counterexample: the Events pipeline writes the "other" sentinel
item - its output over a page holding an "other" item and an ordinary item is
the rendering of both, not of the "other"-filtered list. -/
theorem claimC1_cex :
    eventsPipeline pE0 [encodePage ⟨[itemOther, itemId1], false, none⟩] =
      some ("[\n" ++ renderAll [itemOther, itemId1] ++ "\n]") ∧
    eventsPipeline pE0 [encodePage ⟨[itemOther, itemId1], false, none⟩] ≠
      some ("[\n" ++ renderAll (List.filter notOther [itemOther, itemId1]) ++ "\n]") := by
  refine ⟨rfl, ?_⟩
  decide

/-- Claim C1 (amended): over every valid page sequence the Metrics pipeline
writes exactly the concatenation of the non-"other" items of all pages, in
page-then-intra-page order; the Events pipeline writes the concatenation of
all items of all pages with no filtering, "other" items included. -/
theorem claimC1_amended (p : MParams) (q : EParams) (pages epages : List Page)
    (hv : validSeq pages = true) (hw : validSeq epages = true) :
    metricsPipeline p (pages.map encodePage) =
      some ("[\n" ++ renderAll (((pages.map Page.items).flatten).filter notOther) ++ "\n]") ∧
    eventsPipeline q (epages.map encodePage) =
      some ("[\n" ++ renderAll ((epages.map Page.items).flatten) ++ "\n]") := by
  constructor
  · have hm := (metricsLoop_validSeq p pages hv PState.first).2
    simp only [metricsPipeline, metricsRun]
    rw [hm, ← filter_flatten_drop_lone (pages.map Page.items)]
    simp only [writerRunM, writerLoopM_eq, sawEndB_batches, chunksBeforeEnd_batches,
               writeChunkE_true]
    simp
  · have hm := (eventsLoop_validSeq q epages hw PState.first).2
    simp only [eventsPipeline, eventsRun]
    rw [hm]
    simp only [writerRunE, writerLoopE_eq, sawEndB_batches, chunksBeforeEnd_batches,
               writeChunkE_true]
    simp

/-- Claim C1, witness: the amended statement at a concrete two-page run. -/
theorem claimC1_witness :
    validSeq pages2 = true ∧
    (metricsPipeline pM0 (pages2.map encodePage) =
      some ("[\n" ++ renderAll (((pages2.map Page.items).flatten).filter notOther) ++ "\n]") ∧
     eventsPipeline pE0 (pages2.map encodePage) =
      some ("[\n" ++ renderAll ((pages2.map Page.items).flatten) ++ "\n]")) :=
  ⟨by decide, claimC1_amended pM0 pE0 pages2 pages2 (by decide) (by decide)⟩

/-- Claim C2, counterexample: on a 200 page whose metaData carries more=true
but no nextPageLink, the Metrics worker sends one batch and then dies from
the KeyError: its message sequence is not batches followed by a StreamEnd. -/
theorem claimC2_cex :
    (metricsRun pM0 [respNoTok]).msgs = [Msg.batch [itemId1]] ∧
    (metricsRun pM0 [respNoTok]).fin = RunEnd.crashed ∧
    ¬ ∃ bs, (metricsRun pM0 [respNoTok]).msgs = bs ++ [Msg.streamEnd] ∧
        Msg.streamEnd ∉ bs := by
  refine ⟨rfl, rfl, ?_⟩
  rintro ⟨bs, hb, -⟩
  have h1 : (metricsRun pM0 [respNoTok]).msgs = [Msg.batch [itemId1]] := rfl
  rw [h1] at hb
  rcases bs with _ | ⟨b, bs2⟩
  · simp at hb
  · simp only [List.cons_append, List.cons.injEq] at hb
    exact absurd hb.2.symm (List.append_ne_nil_of_right_ne_nil bs2 (by simp))

/-- Claim C2 (amended): over protocol-well-formed transport outcomes (every
page that announces more pages carries its continuation token, metaData is an
object, data is an array), a worker execution that the outcome script
completes puts zero or more batches followed by exactly one StreamEnd, last;
without that precondition the worker can die with no sentinel (claim C9). -/
theorem claimC2_amended (p : MParams) (q : EParams) (script escript : List PResp)
    (hm : ∀ r ∈ script, respSafe r = true) (he : ∀ r ∈ escript, respSafe r = true) :
    ((metricsRun p script).fin = RunEnd.starved ∨
      ∃ bs, (metricsRun p script).msgs = bs ++ [Msg.streamEnd] ∧ Msg.streamEnd ∉ bs) ∧
    ((eventsRun q escript).fin = RunEnd.starved ∨
      ∃ bs, (eventsRun q escript).msgs = bs ++ [Msg.streamEnd] ∧ Msg.streamEnd ∉ bs) := by
  constructor
  · have hnc := metricsLoop_no_crash p script hm PState.first
    have hsh := metricsLoop_shape p script PState.first
    cases hfin : (metricsRun p script).fin with
    | ended => exact Or.inr (hsh.1 hfin)
    | crashed => exact absurd hfin hnc
    | starved => exact Or.inl rfl
  · have hnc := eventsLoop_no_crash q escript he PState.first
    have hsh := eventsLoop_shape q escript PState.first
    cases hfin : (eventsRun q escript).fin with
    | ended => exact Or.inr (hsh.1 hfin)
    | crashed => exact absurd hfin hnc
    | starved => exact Or.inl rfl

/-- Claim C2, witness: the amended statement at a concrete one-page run. -/
theorem claimC2_witness :
    (∀ r ∈ (pageEmptyLast.map encodePage), respSafe r = true) ∧
    (((metricsRun pM0 (pageEmptyLast.map encodePage)).fin = RunEnd.starved ∨
       ∃ bs, (metricsRun pM0 (pageEmptyLast.map encodePage)).msgs = bs ++ [Msg.streamEnd] ∧
         Msg.streamEnd ∉ bs) ∧
     ((eventsRun pE0 (pageEmptyLast.map encodePage)).fin = RunEnd.starved ∨
       ∃ bs, (eventsRun pE0 (pageEmptyLast.map encodePage)).msgs = bs ++ [Msg.streamEnd] ∧
         Msg.streamEnd ∉ bs)) :=
  ⟨by decide, claimC2_amended pM0 pE0 (pageEmptyLast.map encodePage)
    (pageEmptyLast.map encodePage) (by decide) (by decide)⟩

/-- Claim C3, counterexample: the Events worker has no lone-"other"
suppression: a first page holding exactly the "other" sentinel is enqueued as
a batch (and the phase advances). -/
theorem claimC3_cex :
    (eventsRun pE0 (pagesLoneFirst.map encodePage)).msgs =
      [Msg.batch [itemOther], Msg.batch [itemId4], Msg.streamEnd] ∧
    Msg.batch [itemOther] ≠ Msg.streamEnd ∧
    ((eventsRun pE0 (pagesLoneFirst.map encodePage)).steps.map Prod.fst) =
      [eventsFirstBody pE0, eventsNextBody pE0 (JValue.str "T1")] := by
  refine ⟨rfl, by simp, rfl⟩

/-- Claim C3 (amended): for the Metrics worker the claim holds: on a response
whose item array is exactly one "other" item, no batch is sent for that page,
the phase is not advanced away from First, and the same response's more
indicator is still evaluated - more=true continues pagination with no
premature StreamEnd, more=false sends the StreamEnd.  The Events worker
instead enqueues such a page as a normal batch (see the counterexample). -/
theorem claimC3_amended (p : MParams) (r : PResp) (rest : List PResp) (data : Obj) (x : JValue)
    (hc : classify r = RespCase.good data [x]) (hx : isOther x = true) :
    (noMorePages data = Except.ok false →
      metricsLoop p PState.first (r :: rest) =
        ⟨(metricsFirstBody p, r) :: (metricsLoop p PState.first rest).steps,
         (metricsLoop p PState.first rest).msgs,
         (metricsLoop p PState.first rest).fin⟩) ∧
    (noMorePages data = Except.ok true →
      metricsLoop p PState.first (r :: rest) =
        ⟨[(metricsFirstBody p, r)], [Msg.streamEnd], RunEnd.ended⟩) := by
  have hl : loneOtherB [x] = true := by simp [loneOtherB, hx]
  constructor
  · intro hm
    have h1 := metricsLoop_step_stayFirst p r rest data [x] hc hm hl
    simpa [mkBodyM] using h1
  · intro hm
    have h1 := metricsLoop_step_last p PState.first r rest data [x] hc hm
    simpa [mkBodyM, hl] using h1

/-- Claim C3, witness: the amended statement at a concrete lone-"other" page
with more=true, discharging the continue case. -/
theorem claimC3_witness :
    classify (encodePage ⟨[itemOther], true, some (JValue.str "T1")⟩) =
      RespCase.good (pageData ⟨[itemOther], true, some (JValue.str "T1")⟩) [itemOther] ∧
    isOther itemOther = true ∧
    noMorePages (pageData ⟨[itemOther], true, some (JValue.str "T1")⟩) = Except.ok false ∧
    metricsLoop pM0 PState.first [encodePage ⟨[itemOther], true, some (JValue.str "T1")⟩] =
      ⟨(metricsFirstBody pM0, encodePage ⟨[itemOther], true, some (JValue.str "T1")⟩) ::
          (metricsLoop pM0 PState.first []).steps,
       (metricsLoop pM0 PState.first []).msgs,
       (metricsLoop pM0 PState.first []).fin⟩ :=
  ⟨rfl, rfl, rfl,
    (claimC3_amended pM0 (encodePage ⟨[itemOther], true, some (JValue.str "T1")⟩) []
      (pageData ⟨[itemOther], true, some (JValue.str "T1")⟩) itemOther rfl rfl).1 rfl⟩

/-- Claim C7, counterexample: in a concrete two-page Metrics run the first
body carries enterpriseId and limit but the subsequent body carries neither,
so the subsequent-page field set does not mirror the first-page field set. -/
theorem claimC7_cex :
    ((metricsRun pM0 (pages2.map encodePage)).steps.map (fun sp => bodyKeys sp.1)) =
      [["edgeId", "enterpriseId", "interval", "limit", "_filterSpec"],
       ["edgeId", "interval", "nextPageLink"]] ∧
    ¬ (("enterpriseId" ∈ bodyKeys (metricsNextBody pM0 (JValue.str "T1"))) ↔
       ("enterpriseId" ∈ bodyKeys (metricsFirstBody pM0))) ∧
    ¬ (("limit" ∈ bodyKeys (metricsNextBody pM0 (JValue.str "T1"))) ↔
       ("limit" ∈ bodyKeys (metricsFirstBody pM0))) := by
  refine ⟨rfl, ?_, ?_⟩ <;> decide

/-- Claim C7 (amended): each endpoint's subsequent-page field set is fixed
but does not mirror its first page.  Metrics drops enterpriseId, limit and
_filterSpec, keeping edgeId, interval and nextPageLink.  Events keeps
enterpriseId and interval, adds nextPageLink, and carries limit as a
top-level field although its first page nests limit inside filter. -/
theorem claimC7_amended (p : MParams) (q : EParams) (tok tok2 : JValue) :
    bodyKeys (metricsFirstBody p) =
      ["edgeId", "enterpriseId", "interval", "limit", "_filterSpec"] ∧
    bodyKeys (metricsNextBody p tok) = ["edgeId", "interval", "nextPageLink"] ∧
    bodyKeys (eventsFirstBody q) = ["filter", "interval", "enterpriseId"] ∧
    bodyKeys (eventsNextBody q tok2) = ["nextPageLink", "limit", "interval", "enterpriseId"] :=
  ⟨rfl, rfl, rfl, rfl⟩

/-- Claim C7, witness: the amended field sets at concrete parameters and
tokens. -/
theorem claimC7_witness :
    bodyKeys (metricsFirstBody pM0) =
      ["edgeId", "enterpriseId", "interval", "limit", "_filterSpec"] ∧
    bodyKeys (metricsNextBody pM0 (JValue.str "T1")) = ["edgeId", "interval", "nextPageLink"] ∧
    bodyKeys (eventsFirstBody pE0) = ["filter", "interval", "enterpriseId"] ∧
    bodyKeys (eventsNextBody pE0 (JValue.str "T2")) =
      ["nextPageLink", "limit", "interval", "enterpriseId"] :=
  claimC7_amended pM0 pE0 (JValue.str "T1") (JValue.str "T2")

/-- Claim C8, counterexample: an empty page is forwarded by both workers as
an empty batch - a channel message distinct from the sentinel holding zero
items. -/
theorem claimC8_cex :
    (metricsRun pM0 (pageEmptyLast.map encodePage)).msgs = [Msg.batch [], Msg.streamEnd] ∧
    (eventsRun pE0 (pageEmptyLast.map encodePage)).msgs = [Msg.batch [], Msg.streamEnd] ∧
    Msg.batch ([] : List JValue) ≠ Msg.streamEnd ∧
    ([] : List JValue).length = 0 := by
  refine ⟨rfl, rfl, by simp, rfl⟩

/-- Claim C8 (amended): every non-sentinel channel message is the verbatim -
possibly empty - item array of one validated page: the Metrics worker
forwards every good page except the single-item "other" page, the Events
worker forwards every good page. -/
theorem claimC8_amended (p : MParams) (q : EParams) (st su : PState) (r : PResp)
    (rest erest : List PResp) (data : Obj) (items : List JValue)
    (hc : classify r = RespCase.good data items) (hl : loneOtherB items = false) :
    (metricsLoop p st (r :: rest)).msgs.head? = some (Msg.batch items) ∧
    (eventsLoop q su (r :: erest)).msgs.head? = some (Msg.batch items) := by
  constructor
  · cases hm : noMorePages data with
    | error e => simp [metricsLoop, hc, hm, hl]
    | ok b =>
        cases b with
        | true => simp [metricsLoop, hc, hm, hl]
        | false =>
            have hs : (loneOtherB items && isFirst st) = false := by simp [hl]
            cases ht : tokOf data with
            | error e => simp [metricsLoop, hc, hm, hs, ht, hl]
            | ok tok => simp [metricsLoop, hc, hm, hs, ht, hl]
  · cases hm : noMorePages data with
    | error e => simp [eventsLoop, hc, hm]
    | ok b =>
        cases b with
        | true => simp [eventsLoop, hc, hm]
        | false =>
            cases ht : tokOf data with
            | error e => simp [eventsLoop, hc, hm, ht]
            | ok tok => simp [eventsLoop, hc, hm, ht]

/-- Claim C8, witness: the amended statement at a concrete empty page. -/
theorem claimC8_witness :
    classify (encodePage ⟨[], false, none⟩) =
      RespCase.good (pageData ⟨[], false, none⟩) [] ∧
    loneOtherB [] = false ∧
    ((metricsLoop pM0 PState.first [encodePage ⟨[], false, none⟩]).msgs.head? =
        some (Msg.batch []) ∧
     (eventsLoop pE0 PState.first [encodePage ⟨[], false, none⟩]).msgs.head? =
        some (Msg.batch [])) :=
  ⟨rfl, rfl, claimC8_amended pM0 pE0 PState.first PState.first
    (encodePage ⟨[], false, none⟩) [] [] (pageData ⟨[], false, none⟩) [] rfl rfl⟩

/-- Claim C9: when a good response announces more pages but the lookup
data[metaData][nextPageLink] raises (the token is absent), the worker
terminates from the uncaught KeyError having sent only this page's batch and
never a StreamEnd.  (For Metrics the page must not be the suppressed
lone-"other" first page, which skips the token read.) -/
theorem claimC9_crash (p : MParams) (q : EParams) (st su : PState) (r : PResp)
    (rest erest : List PResp) (data : Obj) (items : List JValue)
    (hc : classify r = RespCase.good data items)
    (hm : noMorePages data = Except.ok false)
    (ht : tokOf data = Except.error ())
    (hl : loneOtherB items = false) :
    (metricsLoop p st (r :: rest) =
      ⟨[(mkBodyM p st, r)], [Msg.batch items], RunEnd.crashed⟩ ∧
     Msg.streamEnd ∉ (metricsLoop p st (r :: rest)).msgs) ∧
    (eventsLoop q su (r :: erest) =
      ⟨[(mkBodyE q su, r)], [Msg.batch items], RunEnd.crashed⟩ ∧
     Msg.streamEnd ∉ (eventsLoop q su (r :: erest)).msgs) := by
  have hs : (loneOtherB items && isFirst st) = false := by simp [hl]
  have h1 := metricsLoop_step_crash p st r rest data items hc hm hs ht
  have h2 := eventsLoop_step_crash q su r erest data items hc hm ht
  have h1s : metricsLoop p st (r :: rest) =
      ⟨[(mkBodyM p st, r)], [Msg.batch items], RunEnd.crashed⟩ := by
    simpa [hl] using h1
  refine ⟨⟨h1s, ?_⟩, ⟨h2, ?_⟩⟩
  · rw [h1s]
    simp
  · rw [h2]
    simp

/-- Claim C9, witness: the crash at a concrete token-less more-pages page. -/
theorem claimC9_witness :
    classify respNoTok = RespCase.good (pageData pgNoTok) [itemId1] ∧
    noMorePages (pageData pgNoTok) = Except.ok false ∧
    tokOf (pageData pgNoTok) = Except.error () ∧
    loneOtherB [itemId1] = false ∧
    ((metricsLoop pM0 PState.first [respNoTok] =
        ⟨[(mkBodyM pM0 PState.first, respNoTok)], [Msg.batch [itemId1]], RunEnd.crashed⟩ ∧
      Msg.streamEnd ∉ (metricsLoop pM0 PState.first [respNoTok]).msgs) ∧
     (eventsLoop pE0 PState.first [respNoTok] =
        ⟨[(mkBodyE pE0 PState.first, respNoTok)], [Msg.batch [itemId1]], RunEnd.crashed⟩ ∧
      Msg.streamEnd ∉ (eventsLoop pE0 PState.first [respNoTok]).msgs)) :=
  ⟨rfl, rfl, rfl, rfl,
    claimC9_crash pM0 pE0 PState.first PState.first respNoTok [] []
      (pageData pgNoTok) [itemId1] rfl rfl rfl rfl⟩

end Velocloud
